import Mathlib

/-!
# Verification of the MSigDB gene-set scraper (`gsea.py`)

A shallow embedding of the pure core of `scrape_gsea`: Python string
primitives on `List Char`, the dual-format TSV payload parser, the
label-driven metadata extractor, the link collector, and the per-record
aggregation loop.  Network fetching and HTML traversal are modelled by
their results (line lists, label/value rows, href lists), which is exactly
the data the Python code reads out of them.
-/

namespace GSEA

/-- Python's `str.isspace` characters as they occur in `str.strip()`
(ASCII whitespace; the scraped payloads are ASCII). -/
def pyIsSpace (c : Char) : Bool :=
  c = ' ' || c = '\t' || c = '\n' || c = '\r' || c = '\x0b' || c = '\x0c'

/-- Python `s.strip()`: drop leading and trailing whitespace. -/
def pyStrip (s : List Char) : List Char :=
  ((s.dropWhile pyIsSpace).reverse.dropWhile pyIsSpace).reverse

/-- Python `s.lower()` (ASCII case folding, which covers the scraped text). -/
def pyLower (s : List Char) : List Char := s.map Char.toLower

/-- Python `s.split(sep)` for a one-character separator: split at every
occurrence, keeping empty pieces; the empty string yields `[[]]`. -/
def splitOnChar (sep : Char) : List Char → List (List Char)
  | [] => [[]]
  | c :: rest =>
    if c = sep then [] :: splitOnChar sep rest
    else
      match splitOnChar sep rest with
      | [] => [[c]]
      | h :: t => (c :: h) :: t

/-- Python `s.split(sep, 1)`: split at the first occurrence only.
`none` models the one-element result when `sep` does not occur. -/
def splitFirst (sep : Char) : List Char → Option (List Char × List Char)
  | [] => none
  | c :: rest =>
    if c = sep then some ([], rest)
    else (splitFirst sep rest).map (fun p => (c :: p.1, p.2))

/-- Split at the last occurrence of `sep`; `none` when `sep` does not occur. -/
def splitLast (sep : Char) : List Char → Option (List Char × List Char)
  | [] => none
  | c :: rest =>
    match splitLast sep rest with
    | some p => some (c :: p.1, p.2)
    | none => if c = sep then some ([], rest) else none

/-- `hasPrefixL pat s` decides whether `pat` is a prefix of `s`. -/
def hasPrefixL : List Char → List Char → Bool
  | [], _ => true
  | _ :: _, [] => false
  | p :: ps, c :: cs => p == c && hasPrefixL ps cs

/-- Python's `pat in s` substring test. -/
def containsSub (pat : List Char) : List Char → Bool
  | [] => hasPrefixL pat []
  | c :: rest => hasPrefixL pat (c :: rest) || containsSub pat rest

/-- Python `s.lower().find(pat)`: index of the first occurrence of `pat`,
`none` for Python's `-1`. -/
def findSub (pat : List Char) : List Char → Option Nat
  | [] => if hasPrefixL pat [] then some 0 else none
  | c :: rest =>
    if hasPrefixL pat (c :: rest) then some 0
    else (findSub pat rest).map (· + 1)

/-- Python `s.replace(pat, rep)` for a nonempty `pat`: replace every
non-overlapping occurrence, scanning left to right. -/
def replaceSub (pat rep : List Char) : List Char → List Char
  | [] => []
  | c :: rest =>
    if hasPrefixL pat (c :: rest) && !pat.isEmpty then
      rep ++ replaceSub pat rep (rest.drop (pat.length - 1))
    else c :: replaceSub pat rep rest
termination_by l => l.length
decreasing_by
  · simp only [List.length_cons, List.length_drop]; omega
  · simp

/-- Python's comma-join of a list of strings (line 191). -/
def joinComma : List (List Char) → List Char
  | [] => []
  | [x] => x
  | x :: y :: rest => x ++ ',' :: joinComma (y :: rest)

/-- The greedy match of `(.*)\((.*)\)` within one newline-free segment:
group 1 is everything before the last `'('` that still has a `')'` after it,
group 2 runs from there to the last `')'`; `none` when the segment has no
`'('` followed by `')'`. -/
def parenSearchLine : List Char → Option (List Char × List Char)
  | [] => none
  | c :: rest =>
    match parenSearchLine rest with
    | some p => some (c :: p.1, p.2)
    | none =>
      if c = '(' then
        match splitLast ')' rest with
        | some p => some ([], p.1)
        | none => none
      else none

/-- The first matching segment, in order. -/
def parenSearchLines : List (List Char) → Option (List Char × List Char)
  | [] => none
  | l :: rest =>
    match parenSearchLine l with
    | some p => some p
    | none => parenSearchLines rest

/-- `re.search(r"(.*)\((.*)\)", s)` (line 133): Python's `.` does not match
a newline, so the leftmost match lies entirely within the first
newline-separated segment of `s` containing `'('` followed by `')'`, and
within that segment both groups are greedy. -/
def parenSearch (s : List Char) : Option (List Char × List Char) :=
  parenSearchLines (splitOnChar '\n' s)

/-- Lines 165 of `gsea.py`: `tsv_resp.text.strip().split("\n")`. -/
def pyLines (text : List Char) : List (List Char) :=
  splitOnChar '\n' (pyStrip text)

/-- Line 177 of `gsea.py`: the row-based format sniff on the lower-cased
first line. -/
def isRowBasedHeader (first : List Char) : Bool :=
  containsSub "gene_symbol".toList (pyLower first)
    && containsSub "gene_id".toList (pyLower first)

/-- The two payload layouts distinguished by first-line sniffing. -/
inductive PayloadMode
  | rowBased
  | keyValue
deriving DecidableEq

/-- The classification the parser performs on a payload (line 177): the
empty-lines case cannot occur (proved below) and is mapped to key-value. -/
def payloadMode (text : List Char) : PayloadMode :=
  match pyLines text with
  | [] => .keyValue
  | first :: _ => if isRowBasedHeader first then .rowBased else .keyValue

/-- One body line of a row-based payload (lines 185-190): strip, split on
tab, and keep the first two parts (trimmed) when there are at least two. -/
def rowStep (line : List Char) : Option (List Char × List Char) :=
  match splitOnChar '\t' (pyStrip line) with
  | a :: b :: _ => some (pyStrip a, pyStrip b)
  | _ => none

/-- Row-based parsing of the body lines (header already removed): the
parallel `gene_symbols` and `gene_ids` accumulators of lines 179-190. -/
def parseRowBased (body : List (List Char)) : List (List Char) × List (List Char) :=
  ((body.filterMap rowStep).map Prod.fst, (body.filterMap rowStep).map Prod.snd)

/-- One line of a key-value payload (lines 199-212): skip blank lines and
lines without a tab; otherwise split at the first tab and assign the trimmed
remainder when the trimmed key is exactly `GENE_SYMBOLS` or `SOURCE_MEMBERS`. -/
def kvStep (acc : List Char × List Char) (line : List Char) : List Char × List Char :=
  if pyStrip line = [] then acc
  else
    match splitFirst '\t' line with
    | none => acc
    | some kv =>
      if pyStrip kv.1 = "GENE_SYMBOLS".toList then (pyStrip kv.2, acc.2)
      else if pyStrip kv.1 = "SOURCE_MEMBERS".toList then (acc.1, pyStrip kv.2)
      else acc

/-- Key-value parsing of all lines, threading the record's current
`(GENE_SYMBOLS, SOURCE_MEMBERS)` values as the initial state (a key that
never occurs leaves the field unchanged, as in the Python dict). -/
def parseKeyValue (ls : List (List Char)) (gs0 sm0 : List Char) : List Char × List Char :=
  ls.foldl kvStep (gs0, sm0)

/-- Lines 165-213 of `gsea.py`: the dual-format payload parser, returning
the record's `(GENE_SYMBOLS, SOURCE_MEMBERS)` pair.  `gs0`/`sm0` are the
fields' values before parsing (the code mutates `meta` in place); the `[]`
branch is the `if not lines` early exit of line 166. -/
def parsePayload (text gs0 sm0 : List Char) : List Char × List Char :=
  match pyLines text with
  | [] => (gs0, sm0)
  | first :: rest =>
    if isRowBasedHeader first then
      (joinComma (parseRowBased rest).1, joinComma (parseRowBased rest).2)
    else
      parseKeyValue (first :: rest) gs0 sm0

/-- The fixed 19-field output schema of lines 53-73, in order. -/
def fieldnames : List String :=
  ["STANDARD_NAME", "SYSTEMATIC_NAME", "COLLECTION", "MSIGDB_URL", "NAMESPACE",
   "DESCRIPTION_BRIEF", "DESCRIPTION_FULL", "PMID", "GEOID", "AUTHORS",
   "CONTRIBUTOR", "CONTRIBUTOR_ORG", "EXACT_SOURCE", "FILTERED_BY_SIMILARITY",
   "EXTERNAL_NAMES_FOR_SIMILAR_TERMS", "EXTERNAL_DETAILS_URL", "SOURCE_MEMBERS",
   "GENE_SYMBOLS", "FOUNDER_NAMES"]

/-- The `meta` dictionary: an insertion-ordered key/value list, as Python
dicts are.  Every key the code assigns is already present, so assignment is
an in-place update of the matching entry. -/
abbrev Record := List (String × List Char)

/-- `meta[name] = v` on a dict whose keys already include `name`. -/
def setField (r : Record) (name : String) (v : List Char) : Record :=
  r.map (fun kv => if kv.1 = name then (kv.1, v) else kv)

/-- `meta[name]` lookup: first entry with the given key (default `""` only
as a modelling device; the code never reads a missing key). -/
def getField : Record → String → List Char
  | [], _ => []
  | kv :: rest, name => if kv.1 = name then kv.2 else getField rest name

/-- Line 85: `meta = {fn: "" for fn in fieldnames}`. -/
def blankRecord : Record := fieldnames.map (fun fn => (fn, ([] : List Char)))

/-- Lines 85-86: all fields empty, then `meta["MSIGDB_URL"] = detail_url`. -/
def initRecord (url : List Char) : Record := setField blankRecord "MSIGDB_URL" url

/-- One row of the `lists4 human` attribute table that has both a `<th>` and
a `<td>`: the label text, the value text (`get_text(" ", strip=True)`), and
the stripped text of a pubmed link inside the `<td>` when one exists. -/
structure AttrRow where
  label : List Char
  value : List Char
  pmidLinkText : Option (List Char)

/-- Lines 99-141: the label-dispatch chain applied to one table row.
First match wins; an unmatched label leaves the record unchanged. -/
def applyRow (meta : Record) (row : AttrRow) : Record :=
  if containsSub "standard name".toList (pyLower row.label) then
    setField meta "STANDARD_NAME" row.value
  else if containsSub "systematic name".toList (pyLower row.label) then
    setField meta "SYSTEMATIC_NAME" row.value
  else if containsSub "collection".toList (pyLower row.label) then
    setField meta "COLLECTION" (row.value.map (fun c => if c = '\n' then ' ' else c))
  else if containsSub "identifier namespace".toList (pyLower row.label)
      || containsSub "source platform".toList (pyLower row.label) then
    setField meta "NAMESPACE" row.value
  else if containsSub "brief description".toList (pyLower row.label) then
    setField meta "DESCRIPTION_BRIEF" row.value
  else if containsSub "full description".toList (pyLower row.label) then
    setField meta "DESCRIPTION_FULL" row.value
  else if containsSub "source publication".toList (pyLower row.label) then
    match findSub "authors:".toList (pyLower row.value) with
    | some idx =>
      setField
        (match row.pmidLinkText with
         | some t => setField meta "PMID" (pyStrip (replaceSub "Pubmed".toList [] (pyStrip t)))
         | none => meta)
        "AUTHORS" (pyStrip (row.value.drop (idx + 8)))
    | none =>
      match row.pmidLinkText with
      | some t => setField meta "PMID" (pyStrip (replaceSub "Pubmed".toList [] (pyStrip t)))
      | none => meta
  else if containsSub "exact source".toList (pyLower row.label) then
    setField meta "EXACT_SOURCE" row.value
  else if containsSub "filtered by similarity".toList (pyLower row.label) then
    setField meta "FILTERED_BY_SIMILARITY" row.value
  else if containsSub "external links".toList (pyLower row.label) then
    setField meta "EXTERNAL_DETAILS_URL" row.value
  else if containsSub "contributed by".toList (pyLower row.label) then
    match parenSearch row.value with
    | some g =>
      setField (setField meta "CONTRIBUTOR" (pyStrip g.1)) "CONTRIBUTOR_ORG" (pyStrip g.2)
    | none => setField meta "CONTRIBUTOR" row.value
  else if containsSub "founder".toList (pyLower row.label) then
    setField meta "FOUNDER_NAMES" row.value
  else meta

/-- The field names the metadata extractor (lines 103-141) can assign,
used to state that it never touches the other five fields. -/
def extractorFields : List String :=
  ["STANDARD_NAME", "SYSTEMATIC_NAME", "COLLECTION", "NAMESPACE",
   "DESCRIPTION_BRIEF", "DESCRIPTION_FULL", "PMID", "AUTHORS",
   "EXACT_SOURCE", "FILTERED_BY_SIMILARITY", "EXTERNAL_DETAILS_URL",
   "CONTRIBUTOR", "CONTRIBUTOR_ORG", "FOUNDER_NAMES"]

/-- One detail page, reduced to the data the code reads from it: the
attribute-table rows (`none` when the `lists4 human` table is absent) and
the downloaded TSV text (`none` when no TSV link is found). -/
structure DetailPage where
  attrRows : Option (List AttrRow)
  tsvText : Option (List Char)

/-- Lines 84-144: initialize the record and run the metadata extractor
over the attribute table, when present. -/
def extractMeta (url : List Char) (page : DetailPage) : Record :=
  match page.attrRows with
  | some rows => rows.foldl applyRow (initRecord url)
  | none => initRecord url

/-- Lines 84-216: the full per-record processing producing the record that
is appended to `results` (the `continue` paths of lines 150-154 and 166-170
are the `none`/empty cases of the payload step). -/
def processDetail (url : List Char) (page : DetailPage) : Record :=
  match page.tsvText with
  | none => extractMeta url page
  | some text =>
    setField
      (setField (extractMeta url page) "GENE_SYMBOLS"
        (parsePayload text (getField (extractMeta url page) "GENE_SYMBOLS")
          (getField (extractMeta url page) "SOURCE_MEMBERS")).1)
      "SOURCE_MEMBERS"
      (parsePayload text (getField (extractMeta url page) "GENE_SYMBOLS")
        (getField (extractMeta url page) "SOURCE_MEMBERS")).2

/-- Line 44: the fixed base location prefixed to every relative href. -/
def baseUrl : List Char := "https://www.gsea-msigdb.org/gsea/".toList

/-- Lines 39-45: the link collector.  `cells` is the catalog table's `<td>`
cells, each given as the hrefs of its `<a href=...>` tags in document order. -/
def collectLinks (cells : List (List (List Char))) : List (List Char) :=
  cells.foldl (fun acc td => acc ++ td.map (fun href => baseUrl ++ href)) []

/-- Lines 78-217: the per-record loop over the detail links, one appended
record per link, in encounter order. -/
def runPipeline (pages : List (List Char × DetailPage)) : List Record :=
  pages.map (fun p => processDetail p.1 p.2)

/-! ## Helper lemmas on the string primitives -/

theorem splitOnChar_ne_nil (sep : Char) (s : List Char) : splitOnChar sep s ≠ [] := by
  cases s with
  | nil => simp [splitOnChar]
  | cons c rest =>
    simp only [splitOnChar]
    split
    · simp
    · split <;> simp

theorem pyStrip_eq_nil_iff (s : List Char) :
    pyStrip s = [] ↔ ∀ c ∈ s, pyIsSpace c = true := by
  constructor
  · intro h c hc
    have h1 : (s.dropWhile pyIsSpace).reverse.dropWhile pyIsSpace = [] :=
      List.reverse_eq_nil_iff.mp h
    have h2 : ∀ x ∈ s.dropWhile pyIsSpace, pyIsSpace x = true := by
      intro x hx
      exact List.dropWhile_eq_nil_iff.mp h1 x (List.mem_reverse.mpr hx)
    have hsplit : s.takeWhile pyIsSpace ++ s.dropWhile pyIsSpace = s :=
      List.takeWhile_append_dropWhile pyIsSpace s
    rw [← hsplit] at hc
    rcases List.mem_append.mp hc with hc | hc
    · exact List.mem_takeWhile_imp hc
    · exact h2 c hc
  · intro h
    have h1 : s.dropWhile pyIsSpace = [] := List.dropWhile_eq_nil_iff.mpr h
    simp [pyStrip, h1]

theorem splitFirst_eq_none_iff (sep : Char) (s : List Char) :
    splitFirst sep s = none ↔ sep ∉ s := by
  induction s with
  | nil => simp [splitFirst]
  | cons c rest ih =>
    by_cases h : c = sep
    · simp [splitFirst, h]
    · have h' : ¬ sep = c := fun hh => h hh.symm
      simp [splitFirst, h, Option.map_eq_none', ih, h']

theorem splitFirst_append (sep : Char) (pre post : List Char) (h : sep ∉ pre) :
    splitFirst sep (pre ++ sep :: post) = some (pre, post) := by
  induction pre with
  | nil => simp [splitFirst]
  | cons c pre ih =>
    have hc : ¬ c = sep := fun hh => h (hh ▸ List.mem_cons_self c pre)
    have hrest : sep ∉ pre := fun hm => h (List.mem_cons_of_mem _ hm)
    simp only [List.cons_append, splitFirst, if_neg hc, List.append_eq]
    rw [ih hrest]
    rfl

theorem hasPrefixL_iff (pat s : List Char) :
    hasPrefixL pat s = true ↔ ∃ t, s = pat ++ t := by
  induction pat generalizing s with
  | nil => simp [hasPrefixL]
  | cons p ps ih =>
    cases s with
    | nil => simp [hasPrefixL]
    | cons c cs =>
      simp only [hasPrefixL, Bool.and_eq_true, beq_iff_eq, ih, List.cons_append,
        List.cons.injEq]
      constructor
      · rintro ⟨rfl, t, rfl⟩
        exact ⟨t, rfl, rfl⟩
      · rintro ⟨t, rfl, rfl⟩
        exact ⟨rfl, t, rfl⟩

theorem containsSub_iff (pat s : List Char) :
    containsSub pat s = true ↔ ∃ a b, s = a ++ pat ++ b := by
  induction s with
  | nil =>
    rw [show containsSub pat [] = hasPrefixL pat [] from rfl, hasPrefixL_iff]
    constructor
    · rintro ⟨t, ht⟩
      exact ⟨[], t, ht⟩
    · rintro ⟨a, b, hab⟩
      obtain ⟨hap, hb⟩ := List.append_eq_nil.mp hab.symm
      obtain ⟨ha, hpat⟩ := List.append_eq_nil.mp hap
      exact ⟨[], by simp [hpat]⟩
  | cons c rest ih =>
    simp only [containsSub, Bool.or_eq_true, hasPrefixL_iff, ih]
    constructor
    · rintro (⟨t, ht⟩ | ⟨a, b, hab⟩)
      · exact ⟨[], t, ht⟩
      · exact ⟨c :: a, b, by simp [hab]⟩
    · rintro ⟨a, b, hab⟩
      cases a with
      | nil => exact Or.inl ⟨b, by simpa using hab⟩
      | cons a0 as =>
        simp only [List.cons_append, List.cons.injEq] at hab
        exact Or.inr ⟨as, b, hab.2⟩

theorem splitOnChar_of_not_mem (sep : Char) (s : List Char) (h : sep ∉ s) :
    splitOnChar sep s = [s] := by
  induction s with
  | nil => rfl
  | cons c rest ih =>
    have hc : ¬ c = sep := fun hh => h (hh ▸ List.mem_cons_self c rest)
    have hr : sep ∉ rest := fun hm => h (List.mem_cons_of_mem _ hm)
    simp only [splitOnChar, if_neg hc, ih hr]

theorem splitOnChar_append (sep : Char) (a b : List Char) (h : sep ∉ a) :
    splitOnChar sep (a ++ sep :: b) = a :: splitOnChar sep b := by
  induction a with
  | nil => simp [splitOnChar]
  | cons c a ih =>
    have hc : ¬ c = sep := fun hh => h (hh ▸ List.mem_cons_self c a)
    have ha : sep ∉ a := fun hm => h (List.mem_cons_of_mem _ hm)
    simp only [List.cons_append, splitOnChar, if_neg hc, List.append_eq]
    rw [ih ha]

theorem splitOnChar_joinComma (l : List (List Char)) (hne : l ≠ [])
    (h : ∀ s ∈ l, ',' ∉ s) : splitOnChar ',' (joinComma l) = l := by
  induction l with
  | nil => exact absurd rfl hne
  | cons x rest ih =>
    cases rest with
    | nil => exact splitOnChar_of_not_mem ',' x (h x (by simp))
    | cons y t =>
      rw [show joinComma (x :: y :: t) = x ++ ',' :: joinComma (y :: t) from rfl]
      rw [splitOnChar_append ',' x _ (h x (by simp))]
      rw [ih (by simp) (fun s hs => h s (List.mem_cons_of_mem _ hs))]

/-! ## Lemmas about the greedy paren-pattern search -/

theorem splitLast_eq_none_iff (sep : Char) (s : List Char) :
    splitLast sep s = none ↔ sep ∉ s := by
  induction s with
  | nil => simp [splitLast]
  | cons c rest ih =>
    simp only [splitLast]
    cases hr : splitLast sep rest with
    | some p =>
      simp only []
      constructor
      · intro hh; exact absurd hh (by simp)
      · intro hh
        exact absurd ((ih.mpr (fun hm => hh (List.mem_cons_of_mem _ hm))).symm.trans hr)
          (by simp)
    | none =>
      by_cases hc : c = sep
      · simp [hc]
      · have h' : ¬ sep = c := fun hh => hc hh.symm
        simp [hc, ih.mp hr, h']

theorem splitLast_append (sep : Char) (a b : List Char) (h : sep ∉ b) :
    splitLast sep (a ++ sep :: b) = some (a, b) := by
  induction a with
  | nil =>
    have h0 : splitLast sep b = none := (splitLast_eq_none_iff sep b).mpr h
    simp [splitLast, h0]
  | cons c a ih =>
    simp only [List.cons_append, splitLast, List.append_eq]
    rw [ih]

theorem splitLast_some_decomp (sep : Char) (s a b : List Char)
    (h : splitLast sep s = some (a, b)) : s = a ++ sep :: b := by
  induction s generalizing a b with
  | nil => exact absurd h (by simp [splitLast])
  | cons c rest ih =>
    simp only [splitLast] at h
    cases hr : splitLast sep rest with
    | some p =>
      rw [hr] at h
      simp only [Option.some.injEq, Prod.mk.injEq] at h
      obtain ⟨ha, hb⟩ := h
      rw [← ha, ← hb]
      simp [ih p.1 p.2 (by rw [hr])]
    | none =>
      rw [hr] at h
      by_cases hc : c = sep
      · rw [if_pos hc] at h
        simp only [Option.some.injEq, Prod.mk.injEq] at h
        obtain ⟨ha, hb⟩ := h
        rw [← ha, ← hb]
        simp [hc]
      · rw [if_neg hc] at h
        exact absurd h (by simp)

theorem parenSearchLine_eq_none_of_no_open (s : List Char) (h : '(' ∉ s) :
    parenSearchLine s = none := by
  induction s with
  | nil => rfl
  | cons c rest ih =>
    have hc : ¬ c = '(' := fun hh => h (hh ▸ List.mem_cons_self c rest)
    have hr : '(' ∉ rest := fun hm => h (List.mem_cons_of_mem _ hm)
    simp only [parenSearchLine, ih hr, if_neg hc]

theorem parenSearchLine_some_decomp (s : List Char) (p : List Char × List Char)
    (h : parenSearchLine s = some p) : ∃ a b c, s = a ++ '(' :: b ++ ')' :: c := by
  induction s generalizing p with
  | nil => exact absurd h (by simp [parenSearchLine])
  | cons c rest ih =>
    simp only [parenSearchLine] at h
    cases hr : parenSearchLine rest with
    | some q =>
      obtain ⟨a, b, d, hd⟩ := ih q hr
      exact ⟨c :: a, b, d, by simp [hd]⟩
    | none =>
      rw [hr] at h
      by_cases hc : c = '('
      · rw [if_pos hc] at h
        cases hs : splitLast ')' rest with
        | some q =>
          have := splitLast_some_decomp ')' rest q.1 q.2 (by rw [hs])
          exact ⟨[], q.1, q.2, by simp [hc, this]⟩
        | none => rw [hs] at h; exact absurd h (by simp)
      · rw [if_neg hc] at h
        exact absurd h (by simp)

theorem parenSearchLine_eq_none (s : List Char)
    (h : ¬ ∃ a b c, s = a ++ '(' :: b ++ ')' :: c) : parenSearchLine s = none := by
  induction s with
  | nil => rfl
  | cons c rest ih =>
    have hr : parenSearchLine rest = none := by
      cases hq : parenSearchLine rest with
      | none => rfl
      | some q =>
        obtain ⟨a, b, d, hd⟩ := parenSearchLine_some_decomp rest q hq
        exact absurd ⟨c :: a, b, d, by simp [hd]⟩ h
    simp only [parenSearchLine, hr]
    by_cases hc : c = '('
    · rw [if_pos hc]
      cases hs : splitLast ')' rest with
      | some q =>
        have := splitLast_some_decomp ')' rest q.1 q.2 (by rw [hs])
        exact absurd ⟨[], q.1, q.2, by simp [hc, this]⟩ h
      | none => rfl
    · rw [if_neg hc]

theorem parenSearchLine_spec (pre inside : List Char) (h1 : '(' ∉ inside) :
    parenSearchLine (pre ++ '(' :: (inside ++ [')'])) = some (pre, inside) := by
  induction pre with
  | nil =>
    have hno : parenSearchLine (inside ++ [')']) = none := by
      apply parenSearchLine_eq_none_of_no_open
      intro hm
      rcases List.mem_append.mp hm with hm | hm
      · exact h1 hm
      · simp at hm
    have hsl : splitLast ')' (inside ++ [')']) = some (inside, []) := by
      rw [show (inside ++ [')'] : List Char) = inside ++ ')' :: [] from rfl]
      exact splitLast_append ')' inside [] (by simp)
    simp [parenSearchLine, hno, hsl]
  | cons c pre ih =>
    simp only [List.cons_append, parenSearchLine, List.append_eq]
    rw [ih]

theorem parenSearchLines_eq_none (ls : List (List Char))
    (h : ∀ l ∈ ls, parenSearchLine l = none) : parenSearchLines ls = none := by
  induction ls with
  | nil => rfl
  | cons l rest ih =>
    simp only [parenSearchLines, h l (List.mem_cons_self l rest),
      ih (fun x hx => h x (List.mem_cons_of_mem _ hx))]

theorem parenSearch_eq_none (s : List Char)
    (h : ∀ line ∈ splitOnChar '\n' s, ¬ ∃ a b c, line = a ++ '(' :: b ++ ')' :: c) :
    parenSearch s = none := by
  unfold parenSearch
  exact parenSearchLines_eq_none _ (fun l hl => parenSearchLine_eq_none l (h l hl))

theorem parenSearch_single_line (s : List Char) (h : '\n' ∉ s) :
    parenSearch s = parenSearchLine s := by
  unfold parenSearch
  rw [splitOnChar_of_not_mem '\n' s h]
  cases hp : parenSearchLine s <;> simp [parenSearchLines, hp]

theorem parenSearch_spec (pre inside : List Char)
    (hn1 : '\n' ∉ pre) (hn2 : '\n' ∉ inside) (h1 : '(' ∉ inside) :
    parenSearch (pre ++ '(' :: (inside ++ [')'])) = some (pre, inside) := by
  have hno : '\n' ∉ pre ++ '(' :: (inside ++ [')']) := by
    intro hm
    rcases List.mem_append.mp hm with hm | hm
    · exact hn1 hm
    · rcases List.mem_cons.mp hm with hm | hm
      · exact absurd hm (by decide)
      · rcases List.mem_append.mp hm with hm | hm
        · exact hn2 hm
        · exact absurd (List.mem_singleton.mp hm) (by decide)
  rw [parenSearch_single_line _ hno]
  exact parenSearchLine_spec pre inside h1

/-! ## Lemmas about the record model -/

theorem setField_cons (kv : String × List Char) (r : Record) (n : String) (v : List Char) :
    setField (kv :: r) n v = (if kv.1 = n then (kv.1, v) else kv) :: setField r n v := rfl

theorem getField_cons (kv : String × List Char) (r : Record) (name : String) :
    getField (kv :: r) name = if kv.1 = name then kv.2 else getField r name := rfl

theorem keys_setField (r : Record) (n : String) (v : List Char) :
    (setField r n v).map Prod.fst = r.map Prod.fst := by
  induction r with
  | nil => rfl
  | cons kv rest ih =>
    rw [setField_cons, List.map_cons, List.map_cons, ih]
    by_cases h : kv.1 = n <;> simp [h]

theorem getField_setField_ne (r : Record) (n : String) (v : List Char) (m : String)
    (h : n ≠ m) : getField (setField r n v) m = getField r m := by
  induction r with
  | nil => rfl
  | cons kv rest ih =>
    rw [setField_cons, getField_cons, getField_cons]
    by_cases hk : kv.1 = n
    · have hm : kv.1 ≠ m := fun hh => h (hk.symm.trans hh)
      simp [hk, hm, ih, h]
    · simp [hk, ih]

theorem getField_setField_mem (r : Record) (n : String) (v : List Char)
    (h : n ∈ r.map Prod.fst) : getField (setField r n v) n = v := by
  induction r with
  | nil => simp at h
  | cons kv rest ih =>
    rw [setField_cons, getField_cons]
    by_cases hk : kv.1 = n
    · simp [hk]
    · have h' : n ∈ kv.1 :: rest.map Prod.fst := by
        rw [List.map_cons] at h
        exact h
      have hmem : n ∈ rest.map Prod.fst := by
        rcases List.mem_cons.mp h' with h1 | h1
        · exact absurd h1.symm hk
        · exact h1
      simp [hk, ih hmem]

theorem getField_map_nil (l : List String) (name : String) :
    getField (l.map (fun fn => (fn, ([] : List Char)))) name = [] := by
  induction l with
  | nil => rfl
  | cons fn rest ih =>
    rw [List.map_cons, getField_cons]
    by_cases h : fn = name <;> simp [h, ih]

theorem keys_blankRecord : blankRecord.map Prod.fst = fieldnames := by decide

theorem keys_initRecord (url : List Char) :
    (initRecord url).map Prod.fst = fieldnames := by
  rw [initRecord, keys_setField]
  exact keys_blankRecord

theorem getField_initRecord_url (url : List Char) :
    getField (initRecord url) "MSIGDB_URL" = url := by
  apply getField_setField_mem
  rw [keys_blankRecord]
  decide

theorem getField_initRecord_ne (url : List Char) (name : String)
    (h : name ≠ "MSIGDB_URL") : getField (initRecord url) name = [] := by
  rw [initRecord, getField_setField_ne _ _ _ _ (fun hh => h hh.symm)]
  exact getField_map_nil _ _

theorem applyRow_shape (m : Record) (row : AttrRow) :
    ∃ ups : List (String × List Char),
      (∀ u ∈ ups, u.1 ∈ extractorFields) ∧
      applyRow m row = ups.foldl (fun r u => setField r u.1 u.2) m := by
  have one : ∀ (n : String) (v : List Char), n ∈ extractorFields →
      ∀ u ∈ ([(n, v)] : List (String × List Char)), u.1 ∈ extractorFields := by
    intro n v hn u hu
    rw [List.mem_singleton.mp hu]
    exact hn
  have two : ∀ (n1 : String) (v1 : List Char) (n2 : String) (v2 : List Char),
      n1 ∈ extractorFields → n2 ∈ extractorFields →
      ∀ u ∈ ([(n1, v1), (n2, v2)] : List (String × List Char)),
        u.1 ∈ extractorFields := by
    intro n1 v1 n2 v2 hn1 hn2 u hu
    rcases List.mem_cons.mp hu with h | hu
    · rw [h]
      exact hn1
    · rw [List.mem_singleton.mp hu]
      exact hn2
  unfold applyRow
  by_cases h1 : containsSub "standard name".toList (pyLower row.label) = true
  · rw [if_pos h1]
    exact ⟨[("STANDARD_NAME", row.value)], one _ _ (by decide), rfl⟩
  rw [if_neg h1]
  by_cases h2 : containsSub "systematic name".toList (pyLower row.label) = true
  · rw [if_pos h2]
    exact ⟨[("SYSTEMATIC_NAME", row.value)], one _ _ (by decide), rfl⟩
  rw [if_neg h2]
  by_cases h3 : containsSub "collection".toList (pyLower row.label) = true
  · rw [if_pos h3]
    exact ⟨[("COLLECTION", row.value.map (fun c => if c = '\n' then ' ' else c))],
      one _ _ (by decide), rfl⟩
  rw [if_neg h3]
  by_cases h4 : (containsSub "identifier namespace".toList (pyLower row.label)
      || containsSub "source platform".toList (pyLower row.label)) = true
  · rw [if_pos h4]
    exact ⟨[("NAMESPACE", row.value)], one _ _ (by decide), rfl⟩
  rw [if_neg h4]
  by_cases h5 : containsSub "brief description".toList (pyLower row.label) = true
  · rw [if_pos h5]
    exact ⟨[("DESCRIPTION_BRIEF", row.value)], one _ _ (by decide), rfl⟩
  rw [if_neg h5]
  by_cases h6 : containsSub "full description".toList (pyLower row.label) = true
  · rw [if_pos h6]
    exact ⟨[("DESCRIPTION_FULL", row.value)], one _ _ (by decide), rfl⟩
  rw [if_neg h6]
  by_cases h7 : containsSub "source publication".toList (pyLower row.label) = true
  · rw [if_pos h7]
    cases hf : findSub "authors:".toList (pyLower row.value) with
    | some idx =>
            cases hp : row.pmidLinkText with
      | some t =>
        exact ⟨[("PMID", pyStrip (replaceSub "Pubmed".toList [] (pyStrip t))),
                ("AUTHORS", pyStrip (row.value.drop (idx + 8)))],
          two _ _ _ _ (by decide) (by decide), rfl⟩
      | none =>
        exact ⟨[("AUTHORS", pyStrip (row.value.drop (idx + 8)))],
          one _ _ (by decide), rfl⟩
    | none =>
            cases hp : row.pmidLinkText with
      | some t =>
        exact ⟨[("PMID", pyStrip (replaceSub "Pubmed".toList [] (pyStrip t)))],
          one _ _ (by decide), rfl⟩
      | none =>
        exact ⟨[], by intro u hu; exact absurd hu (List.not_mem_nil u), rfl⟩
  rw [if_neg h7]
  by_cases h8 : containsSub "exact source".toList (pyLower row.label) = true
  · rw [if_pos h8]
    exact ⟨[("EXACT_SOURCE", row.value)], one _ _ (by decide), rfl⟩
  rw [if_neg h8]
  by_cases h9 : containsSub "filtered by similarity".toList (pyLower row.label) = true
  · rw [if_pos h9]
    exact ⟨[("FILTERED_BY_SIMILARITY", row.value)], one _ _ (by decide), rfl⟩
  rw [if_neg h9]
  by_cases h10 : containsSub "external links".toList (pyLower row.label) = true
  · rw [if_pos h10]
    exact ⟨[("EXTERNAL_DETAILS_URL", row.value)], one _ _ (by decide), rfl⟩
  rw [if_neg h10]
  by_cases h11 : containsSub "contributed by".toList (pyLower row.label) = true
  · rw [if_pos h11]
    cases hg : parenSearch row.value with
    | some g =>
      exact ⟨[("CONTRIBUTOR", pyStrip g.1), ("CONTRIBUTOR_ORG", pyStrip g.2)],
        two _ _ _ _ (by decide) (by decide), rfl⟩
    | none =>
      exact ⟨[("CONTRIBUTOR", row.value)], one _ _ (by decide), rfl⟩
  rw [if_neg h11]
  by_cases h12 : containsSub "founder".toList (pyLower row.label) = true
  · rw [if_pos h12]
    exact ⟨[("FOUNDER_NAMES", row.value)], one _ _ (by decide), rfl⟩
  rw [if_neg h12]
  exact ⟨[], by intro u hu; exact absurd hu (List.not_mem_nil u), rfl⟩

theorem keys_foldl_setField (ups : List (String × List Char)) (m : Record) :
    ((ups.foldl (fun r u => setField r u.1 u.2) m).map Prod.fst) = m.map Prod.fst := by
  induction ups generalizing m with
  | nil => rfl
  | cons u rest ih => rw [List.foldl_cons, ih, keys_setField]

theorem getField_foldl_setField_keep (ups : List (String × List Char)) (m : Record)
    (name : String) (h : ∀ u ∈ ups, u.1 ≠ name) :
    getField (ups.foldl (fun r u => setField r u.1 u.2) m) name = getField m name := by
  induction ups generalizing m with
  | nil => rfl
  | cons u rest ih =>
    rw [List.foldl_cons, ih _ (fun x hx => h x (List.mem_cons_of_mem _ hx)),
      getField_setField_ne _ _ _ _ (h u (List.mem_cons_self u rest))]

theorem keys_applyRow (m : Record) (row : AttrRow) :
    (applyRow m row).map Prod.fst = m.map Prod.fst := by
  obtain ⟨ups, _, heq⟩ := applyRow_shape m row
  rw [heq, keys_foldl_setField]

theorem getField_applyRow_keep (m : Record) (row : AttrRow) (name : String)
    (h : name = "MSIGDB_URL" ∨ name = "GENE_SYMBOLS" ∨ name = "SOURCE_MEMBERS") :
    getField (applyRow m row) name = getField m name := by
  obtain ⟨ups, hmem, heq⟩ := applyRow_shape m row
  have hne : ∀ n ∈ extractorFields, n ≠ name := by
    rcases h with h | h | h <;> rw [h] <;> decide
  rw [heq, getField_foldl_setField_keep _ _ _ (fun u hu => hne u.1 (hmem u hu))]

theorem keys_foldl_applyRow (rows : List AttrRow) (m : Record) :
    ((rows.foldl applyRow m).map Prod.fst) = m.map Prod.fst := by
  induction rows generalizing m with
  | nil => rfl
  | cons r rest ih => rw [List.foldl_cons, ih, keys_applyRow]

theorem getField_foldl_applyRow_keep (rows : List AttrRow) (m : Record) (name : String)
    (h : name = "MSIGDB_URL" ∨ name = "GENE_SYMBOLS" ∨ name = "SOURCE_MEMBERS") :
    getField (rows.foldl applyRow m) name = getField m name := by
  induction rows generalizing m with
  | nil => rfl
  | cons r rest ih =>
    rw [List.foldl_cons, ih (applyRow m r), getField_applyRow_keep m r name h]

theorem keys_extractMeta (url : List Char) (page : DetailPage) :
    (extractMeta url page).map Prod.fst = fieldnames := by
  unfold extractMeta
  split
  · rw [keys_foldl_applyRow]
    exact keys_initRecord url
  · exact keys_initRecord url

theorem getField_extractMeta_keep (url : List Char) (page : DetailPage) (name : String)
    (h : name = "MSIGDB_URL" ∨ name = "GENE_SYMBOLS" ∨ name = "SOURCE_MEMBERS") :
    getField (extractMeta url page) name = getField (initRecord url) name := by
  unfold extractMeta
  split
  · exact getField_foldl_applyRow_keep _ _ name h
  · rfl

theorem keys_processDetail (url : List Char) (page : DetailPage) :
    (processDetail url page).map Prod.fst = fieldnames := by
  unfold processDetail
  split
  · exact keys_extractMeta url page
  · rw [keys_setField, keys_setField]
    exact keys_extractMeta url page

theorem getField_extractMeta_msigdb (url : List Char) (page : DetailPage) :
    getField (extractMeta url page) "MSIGDB_URL" = url := by
  rw [getField_extractMeta_keep url page "MSIGDB_URL" (Or.inl rfl)]
  exact getField_initRecord_url url

theorem getField_extractMeta_gs (url : List Char) (page : DetailPage) :
    getField (extractMeta url page) "GENE_SYMBOLS" = [] := by
  rw [getField_extractMeta_keep url page "GENE_SYMBOLS" (Or.inr (Or.inl rfl))]
  exact getField_initRecord_ne url _ (by decide)

theorem getField_extractMeta_sm (url : List Char) (page : DetailPage) :
    getField (extractMeta url page) "SOURCE_MEMBERS" = [] := by
  rw [getField_extractMeta_keep url page "SOURCE_MEMBERS" (Or.inr (Or.inr rfl))]
  exact getField_initRecord_ne url _ (by decide)

theorem getField_processDetail_msigdb (url : List Char) (page : DetailPage) :
    getField (processDetail url page) "MSIGDB_URL" = url := by
  unfold processDetail
  split
  · exact getField_extractMeta_msigdb url page
  · rw [getField_setField_ne _ "SOURCE_MEMBERS" _ "MSIGDB_URL" (by decide),
      getField_setField_ne _ "GENE_SYMBOLS" _ "MSIGDB_URL" (by decide)]
    exact getField_extractMeta_msigdb url page

/-! ## Lemmas about the payload parser -/

theorem kvStep_blank (acc : List Char × List Char) (line : List Char)
    (h : pyStrip line = []) : kvStep acc line = acc := by
  unfold kvStep
  rw [if_pos h]

theorem kvStep_no_tab (acc : List Char × List Char) (line : List Char)
    (h : splitFirst '\t' line = none) : kvStep acc line = acc := by
  unfold kvStep
  split
  · rfl
  · rw [h]

theorem pyStrip_ne_nil_of_mem (line : List Char) (c : Char) (hc : c ∈ line)
    (hs : pyIsSpace c = false) : pyStrip line ≠ [] := by
  intro hnil
  have := (pyStrip_eq_nil_iff line).mp hnil c hc
  rw [hs] at this
  exact absurd this (by decide)

theorem mem_of_mem_pyStrip (s : List Char) (c : Char) (h : c ∈ pyStrip s) : c ∈ s := by
  unfold pyStrip at h
  rw [List.mem_reverse] at h
  have h1 := (List.dropWhile_sublist pyIsSpace).subset h
  rw [List.mem_reverse] at h1
  exact (List.dropWhile_sublist pyIsSpace).subset h1

theorem kvStep_gs (acc : List Char × List Char) (pre post : List Char)
    (hpre : '\t' ∉ pre) (hkey : pyStrip pre = "GENE_SYMBOLS".toList) :
    kvStep acc (pre ++ '\t' :: post) = (pyStrip post, acc.2) := by
  have hG : 'G' ∈ pre := mem_of_mem_pyStrip pre 'G' (by rw [hkey]; decide)
  have hline : ¬ pyStrip (pre ++ '\t' :: post) = [] :=
    pyStrip_ne_nil_of_mem _ 'G' (List.mem_append.mpr (Or.inl hG)) (by decide)
  unfold kvStep
  rw [if_neg hline, splitFirst_append '\t' pre post hpre]
  simp [hkey]

theorem kvStep_sm (acc : List Char × List Char) (pre post : List Char)
    (hpre : '\t' ∉ pre) (hkey : pyStrip pre = "SOURCE_MEMBERS".toList) :
    kvStep acc (pre ++ '\t' :: post) = (acc.1, pyStrip post) := by
  have hS : 'S' ∈ pre := mem_of_mem_pyStrip pre 'S' (by rw [hkey]; decide)
  have hline : ¬ pyStrip (pre ++ '\t' :: post) = [] :=
    pyStrip_ne_nil_of_mem _ 'S' (List.mem_append.mpr (Or.inl hS)) (by decide)
  unfold kvStep
  rw [if_neg hline, splitFirst_append '\t' pre post hpre]
  show (if pyStrip pre = "GENE_SYMBOLS".toList then (pyStrip post, acc.2)
      else if pyStrip pre = "SOURCE_MEMBERS".toList then (acc.1, pyStrip post)
      else acc) = (acc.1, pyStrip post)
  rw [hkey, if_neg (by decide), if_pos rfl]

theorem parsePayload_rowbased (text first : List Char) (rest : List (List Char))
    (gs sm : List Char) (hl : pyLines text = first :: rest)
    (hh : isRowBasedHeader first = true) :
    parsePayload text gs sm
      = (joinComma (parseRowBased rest).1, joinComma (parseRowBased rest).2) := by
  unfold parsePayload
  rw [hl]
  simp [hh]

theorem parsePayload_keyvalue (text first : List Char) (rest : List (List Char))
    (gs sm : List Char) (hl : pyLines text = first :: rest)
    (hh : isRowBasedHeader first = false) :
    parsePayload text gs sm = parseKeyValue (first :: rest) gs sm := by
  unfold parsePayload
  rw [hl]
  simp [hh]

theorem payloadMode_cons (text first : List Char) (rest : List (List Char))
    (hl : pyLines text = first :: rest) :
    payloadMode text = if isRowBasedHeader first then .rowBased else .keyValue := by
  unfold payloadMode
  rw [hl]

theorem pyLines_all_space (text : List Char) (h : ∀ c ∈ text, pyIsSpace c = true) :
    pyLines text = [[]] := by
  unfold pyLines
  rw [(pyStrip_eq_nil_iff text).mpr h]
  rfl

theorem parse_all_space (text : List Char) (h : ∀ c ∈ text, pyIsSpace c = true) :
    payloadMode text = PayloadMode.keyValue ∧ parsePayload text [] [] = ([], []) := by
  have hl := pyLines_all_space text h
  constructor
  · rw [payloadMode_cons text [] [] hl]
    decide
  · rw [parsePayload_keyvalue text [] [] [] [] hl (by decide)]
    decide

/-! ## Lemmas about the link collector -/

theorem collectLinks_eq (cells : List (List (List Char))) :
    collectLinks cells = cells.flatten.map (fun href => baseUrl ++ href) := by
  suffices h : ∀ (cs : List (List (List Char))) (acc : List (List Char)),
      cs.foldl (fun a td => a ++ td.map (fun href => baseUrl ++ href)) acc
        = acc ++ cs.flatten.map (fun href => baseUrl ++ href) by
    simpa using h cells []
  intro cs
  induction cs with
  | nil => intro acc; simp
  | cons td rest ih =>
    intro acc
    simp [ih, List.flatten]

theorem getD_map_plus (l : List (List Char)) (i : Nat) (h : i < l.length) :
    (l.map (fun href => baseUrl ++ href)).getD i []
      = baseUrl ++ l.getD i [] := by
  induction l generalizing i with
  | nil => exact absurd h (Nat.not_lt_zero i)
  | cons x xs ih =>
    cases i with
    | zero => rfl
    | succ n => exact ih n (Nat.lt_of_succ_lt_succ h)

theorem getField_set2_gs (meta : Record) (hkeys : meta.map Prod.fst = fieldnames)
    (v1 v2 : List Char) :
    getField (setField (setField meta "GENE_SYMBOLS" v1) "SOURCE_MEMBERS" v2)
      "GENE_SYMBOLS" = v1 := by
  rw [getField_setField_ne _ "SOURCE_MEMBERS" v2 "GENE_SYMBOLS" (by decide)]
  apply getField_setField_mem
  rw [hkeys]
  decide

theorem getField_set2_sm (meta : Record) (hkeys : meta.map Prod.fst = fieldnames)
    (v1 v2 : List Char) :
    getField (setField (setField meta "GENE_SYMBOLS" v1) "SOURCE_MEMBERS" v2)
      "SOURCE_MEMBERS" = v2 := by
  apply getField_setField_mem
  rw [keys_setField, hkeys]
  decide

theorem getField_setContrib2_c (m : Record) (hm : m.map Prod.fst = fieldnames)
    (v1 v2 : List Char) :
    getField (setField (setField m "CONTRIBUTOR" v1) "CONTRIBUTOR_ORG" v2)
      "CONTRIBUTOR" = v1 := by
  rw [getField_setField_ne _ "CONTRIBUTOR_ORG" v2 "CONTRIBUTOR" (by decide)]
  apply getField_setField_mem
  rw [hm]
  decide

theorem getField_setContrib2_org (m : Record) (hm : m.map Prod.fst = fieldnames)
    (v1 v2 : List Char) :
    getField (setField (setField m "CONTRIBUTOR" v1) "CONTRIBUTOR_ORG" v2)
      "CONTRIBUTOR_ORG" = v2 := by
  apply getField_setField_mem
  rw [keys_setField, hm]
  decide

theorem getField_setContrib1 (m : Record) (hm : m.map Prod.fst = fieldnames)
    (v : List Char) :
    getField (setField m "CONTRIBUTOR" v) "CONTRIBUTOR" = v := by
  apply getField_setField_mem
  rw [hm]
  decide

/-! ## Claim theorems -/

/-- C1 counterexample: in a row-based payload the body line `TP53` tab-splits
into exactly one part, and contrary to the claim it contributes nothing: the
resulting `GENE_SYMBOLS` string is empty, not `TP53`. -/
theorem one_column_line_dropped :
    (parsePayload "GENE_SYMBOL\tGENE_ID\nTP53\n".toList [] []).1 = []
    ∧ (parsePayload "GENE_SYMBOL\tGENE_ID\nTP53\n".toList [] []).1 ≠ "TP53".toList :=
  ⟨by decide, by decide⟩

/-- C1 (amended): in row-based parsing a non-header line whose tab-split of
the stripped line yields at least two parts contributes its first and second
parts (trimmed) to the two sequences, and a line yielding exactly one part is
skipped without error and contributes nothing to either sequence. -/
theorem row_mode_two_column_rule (body : List (List Char)) (line : List Char) :
    (∀ a b tl, splitOnChar '\t' (pyStrip line) = a :: b :: tl →
      parseRowBased (body ++ [line])
        = ((parseRowBased body).1 ++ [pyStrip a], (parseRowBased body).2 ++ [pyStrip b]))
    ∧ (∀ a, splitOnChar '\t' (pyStrip line) = [a] →
      parseRowBased (body ++ [line]) = parseRowBased body) := by
  constructor
  · intro a b tl hsplit
    have hstep : rowStep line = some (pyStrip a, pyStrip b) := by
      unfold rowStep
      rw [hsplit]
    unfold parseRowBased
    rw [List.filterMap_append]
    simp [hstep]
  · intro a hsplit
    have hstep : rowStep line = none := by
      unfold rowStep
      rw [hsplit]
    unfold parseRowBased
    rw [List.filterMap_append]
    simp [hstep]

/-- C1 witness: a two-column line `TP53\t7157` contributes both parts, and a
one-column line `ONECOL` is skipped. -/
theorem row_mode_two_column_rule_witness :
    parseRowBased ([] ++ ["TP53\t7157".toList])
      = ((parseRowBased []).1 ++ [pyStrip "TP53".toList],
        (parseRowBased []).2 ++ [pyStrip "7157".toList])
    ∧ parseRowBased (["A\tB".toList] ++ ["ONECOL".toList])
        = parseRowBased ["A\tB".toList] :=
  ⟨(row_mode_two_column_rule [] "TP53\t7157".toList).1 "TP53".toList "7157".toList []
      (by decide),
   (row_mode_two_column_rule ["A\tB".toList] "ONECOL".toList).2 "ONECOL".toList
      (by decide)⟩

/-- C2: key-value parsing splits each line at the first tab only, skips blank
lines and lines without a tab, and when the trimmed key is exactly
`GENE_SYMBOLS` (resp. `SOURCE_MEMBERS`) assigns the trimmed remainder
verbatim, with no comma-splitting or re-joining; the spec's example payload
yields `GENE_SYMBOLS="TSPAN1,MPZL2"` and `SOURCE_MEMBERS="10103,10205"`. -/
theorem keyvalue_verbatim_assignment :
    parsePayload "GENE_SYMBOLS\tTSPAN1,MPZL2\nSOURCE_MEMBERS\t10103,10205\n".toList [] []
      = ("TSPAN1,MPZL2".toList, "10103,10205".toList)
    ∧ (∀ (ls : List (List Char)) (gs sm line : List Char), pyStrip line = [] →
        parseKeyValue (ls ++ [line]) gs sm = parseKeyValue ls gs sm)
    ∧ (∀ (ls : List (List Char)) (gs sm line : List Char), splitFirst '\t' line = none →
        parseKeyValue (ls ++ [line]) gs sm = parseKeyValue ls gs sm)
    ∧ (∀ (ls : List (List Char)) (gs sm pre post : List Char), '\t' ∉ pre →
        pyStrip pre = "GENE_SYMBOLS".toList →
        parseKeyValue (ls ++ [pre ++ '\t' :: post]) gs sm
          = (pyStrip post, (parseKeyValue ls gs sm).2))
    ∧ (∀ (ls : List (List Char)) (gs sm pre post : List Char), '\t' ∉ pre →
        pyStrip pre = "SOURCE_MEMBERS".toList →
        parseKeyValue (ls ++ [pre ++ '\t' :: post]) gs sm
          = ((parseKeyValue ls gs sm).1, pyStrip post)) := by
  have hfold : ∀ (ls : List (List Char)) (gs sm line : List Char),
      parseKeyValue (ls ++ [line]) gs sm = kvStep (parseKeyValue ls gs sm) line := by
    intro ls gs sm line
    unfold parseKeyValue
    rw [List.foldl_append]
    rfl
  refine ⟨by decide, ?_, ?_, ?_, ?_⟩
  · intro ls gs sm line h
    rw [hfold, kvStep_blank _ _ h]
  · intro ls gs sm line h
    rw [hfold, kvStep_no_tab _ _ h]
  · intro ls gs sm pre post h1 h2
    rw [hfold, kvStep_gs _ _ _ h1 h2]
  · intro ls gs sm pre post h1 h2
    rw [hfold, kvStep_sm _ _ _ h1 h2]

/-- C2 witness: a `GENE_SYMBOLS` line whose remainder itself contains a tab
and commas is assigned verbatim (trimmed), demonstrating the first-tab-only
split. -/
theorem keyvalue_verbatim_witness :
    parseKeyValue ([] ++ ["GENE_SYMBOLS".toList ++ '\t' :: "A\tB,C".toList]) [] []
      = (pyStrip "A\tB,C".toList, (parseKeyValue ([] : List (List Char)) [] []).2) :=
  keyvalue_verbatim_assignment.2.2.2.1 [] [] [] "GENE_SYMBOLS".toList "A\tB,C".toList
    (by decide) (by decide)

/-- C3: the parser selects row-based mode iff the lower-cased first line
contains both `gene_symbol` and `gene_id` as substrings; otherwise it selects
key-value mode; the classification depends only on the first line, and the
parser then dispatches to the corresponding sub-parser. -/
theorem first_line_classification (t1 t2 first : List Char)
    (r1 r2 : List (List Char)) (gs sm : List Char)
    (h1 : pyLines t1 = first :: r1) (h2 : pyLines t2 = first :: r2) :
    (payloadMode t1 = PayloadMode.rowBased ↔
      ((∃ a b, pyLower first = a ++ "gene_symbol".toList ++ b)
        ∧ (∃ a b, pyLower first = a ++ "gene_id".toList ++ b)))
    ∧ payloadMode t1 = payloadMode t2
    ∧ (payloadMode t1 = PayloadMode.rowBased →
        parsePayload t1 gs sm
          = (joinComma (parseRowBased r1).1, joinComma (parseRowBased r1).2))
    ∧ (payloadMode t1 = PayloadMode.keyValue →
        parsePayload t1 gs sm = parseKeyValue (first :: r1) gs sm) := by
  have hm1 := payloadMode_cons t1 first r1 h1
  have hm2 := payloadMode_cons t2 first r2 h2
  have hiff : isRowBasedHeader first = true ↔
      ((∃ a b, pyLower first = a ++ "gene_symbol".toList ++ b)
        ∧ (∃ a b, pyLower first = a ++ "gene_id".toList ++ b)) := by
    unfold isRowBasedHeader
    rw [Bool.and_eq_true, containsSub_iff, containsSub_iff]
  refine ⟨?_, ?_, ?_, ?_⟩
  · rw [hm1]
    cases hb : isRowBasedHeader first with
    | true =>
      rw [if_pos rfl]
      constructor
      · intro _
        exact hiff.mp hb
      · intro _
        rfl
    | false =>
      rw [if_neg (by decide)]
      constructor
      · intro hcontra
        exact absurd hcontra (by decide)
      · intro hconds
        exact absurd (hiff.mpr hconds) (by rw [hb]; exact Bool.false_ne_true)
  · rw [hm1, hm2]
  · intro hmode
    cases hb : isRowBasedHeader first with
    | true => exact parsePayload_rowbased t1 first r1 gs sm h1 hb
    | false =>
      rw [hm1, if_neg (by rw [hb]; exact Bool.false_ne_true)] at hmode
      exact absurd hmode (by decide)
  · intro hmode
    cases hb : isRowBasedHeader first with
    | true =>
      rw [hm1, if_pos (by rw [hb])] at hmode
      exact absurd hmode (by decide)
    | false => exact parsePayload_keyvalue t1 first r1 gs sm h1 hb

/-- C3 witness: two payloads sharing the header line `GENE_SYMBOL\tGENE_ID`
are both classified row-based, whatever their bodies. -/
theorem first_line_classification_witness :
    payloadMode "GENE_SYMBOL\tGENE_ID\nTP53\t7157\n".toList = PayloadMode.rowBased
    ∧ payloadMode "GENE_SYMBOL\tGENE_ID\nTP53\t7157\n".toList
        = payloadMode "GENE_SYMBOL\tGENE_ID\nMYC\t4609\n".toList := by
  have h := first_line_classification
    "GENE_SYMBOL\tGENE_ID\nTP53\t7157\n".toList
    "GENE_SYMBOL\tGENE_ID\nMYC\t4609\n".toList
    "GENE_SYMBOL\tGENE_ID".toList
    ["TP53\t7157".toList] ["MYC\t4609".toList] [] []
    (by decide) (by decide)
  exact ⟨h.1.mpr ⟨⟨[], "\tgene_id".toList, by decide⟩,
    ⟨"gene_symbol\t".toList, [], by decide⟩⟩, h.2.1⟩

/-- C4: a payload of only whitespace (in particular the empty payload) parses
without error: the parser yields empty fields and the record's
`GENE_SYMBOLS` and `SOURCE_MEMBERS` both remain the empty string. -/
theorem empty_payload_nonfatal (text url : List Char) (rows : Option (List AttrRow))
    (h : ∀ c ∈ text, pyIsSpace c = true) :
    parsePayload text [] [] = ([], [])
    ∧ getField (processDetail url ⟨rows, some text⟩) "GENE_SYMBOLS" = []
    ∧ getField (processDetail url ⟨rows, some text⟩) "SOURCE_MEMBERS" = [] := by
  have hp := (parse_all_space text h).2
  have hgs := getField_extractMeta_gs url ⟨rows, some text⟩
  have hsm := getField_extractMeta_sm url ⟨rows, some text⟩
  have hpd : processDetail url ⟨rows, some text⟩
      = setField
          (setField (extractMeta url ⟨rows, some text⟩) "GENE_SYMBOLS"
            (parsePayload text
              (getField (extractMeta url ⟨rows, some text⟩) "GENE_SYMBOLS")
              (getField (extractMeta url ⟨rows, some text⟩) "SOURCE_MEMBERS")).1)
          "SOURCE_MEMBERS"
          (parsePayload text
            (getField (extractMeta url ⟨rows, some text⟩) "GENE_SYMBOLS")
            (getField (extractMeta url ⟨rows, some text⟩) "SOURCE_MEMBERS")).2 := rfl
  refine ⟨hp, ?_, ?_⟩
  · rw [hpd, getField_set2_gs _ (keys_extractMeta url ⟨rows, some text⟩) _ _,
      hgs, hsm, hp]
  · rw [hpd, getField_set2_sm _ (keys_extractMeta url ⟨rows, some text⟩) _ _,
      hgs, hsm, hp]

/-- C4 witness: a whitespace-only payload on a page without an attribute
table leaves both gene fields empty. -/
theorem empty_payload_nonfatal_witness :
    parsePayload "  \n ".toList [] [] = ([], [])
    ∧ getField (processDetail "u".toList ⟨none, some "  \n ".toList⟩) "GENE_SYMBOLS" = [] :=
  ⟨(empty_payload_nonfatal "  \n ".toList "u".toList none (by decide)).1,
   (empty_payload_nonfatal "  \n ".toList "u".toList none (by decide)).2.1⟩

/-- C5: for a row dispatched to the `contributed by` rule (its lower-cased
label contains `contributed by` and none of the earlier rules' substrings),
a value of the shape `text (text)` — with no newline before or inside the
parentheses, since the regex's `.` cannot cross one — sets CONTRIBUTOR to
the trimmed part before the parenthesis and CONTRIBUTOR_ORG to the trimmed
part inside it, and a value no newline-segment of which contains a
parenthesized part is copied verbatim to CONTRIBUTOR with CONTRIBUTOR_ORG
left unchanged (empty). -/
theorem contributed_by_split (m : Record) (row : AttrRow)
    (hm : m.map Prod.fst = fieldnames)
    (hc : containsSub "contributed by".toList (pyLower row.label) = true)
    (e1 : containsSub "standard name".toList (pyLower row.label) = false)
    (e2 : containsSub "systematic name".toList (pyLower row.label) = false)
    (e3 : containsSub "collection".toList (pyLower row.label) = false)
    (e4 : containsSub "identifier namespace".toList (pyLower row.label) = false)
    (e5 : containsSub "source platform".toList (pyLower row.label) = false)
    (e6 : containsSub "brief description".toList (pyLower row.label) = false)
    (e7 : containsSub "full description".toList (pyLower row.label) = false)
    (e8 : containsSub "source publication".toList (pyLower row.label) = false)
    (e9 : containsSub "exact source".toList (pyLower row.label) = false)
    (e10 : containsSub "filtered by similarity".toList (pyLower row.label) = false)
    (e11 : containsSub "external links".toList (pyLower row.label) = false) :
    (∀ pre inside, '\n' ∉ pre → '\n' ∉ inside → '(' ∉ inside → ')' ∉ inside →
      row.value = pre ++ '(' :: (inside ++ [')']) →
      getField (applyRow m row) "CONTRIBUTOR" = pyStrip pre
        ∧ getField (applyRow m row) "CONTRIBUTOR_ORG" = pyStrip inside)
    ∧ ((∀ line ∈ splitOnChar '\n' row.value,
        ¬ ∃ a b c, line = a ++ '(' :: b ++ ')' :: c) →
      getField (applyRow m row) "CONTRIBUTOR" = row.value
        ∧ getField (applyRow m row) "CONTRIBUTOR_ORG" = getField m "CONTRIBUTOR_ORG") := by
  have hbranch : applyRow m row
      = match parenSearch row.value with
        | some g =>
          setField (setField m "CONTRIBUTOR" (pyStrip g.1)) "CONTRIBUTOR_ORG" (pyStrip g.2)
        | none => setField m "CONTRIBUTOR" row.value := by
    unfold applyRow
    rw [if_neg (by rw [e1]; exact Bool.false_ne_true),
      if_neg (by rw [e2]; exact Bool.false_ne_true),
      if_neg (by rw [e3]; exact Bool.false_ne_true),
      if_neg (by rw [e4, e5]; decide),
      if_neg (by rw [e6]; exact Bool.false_ne_true),
      if_neg (by rw [e7]; exact Bool.false_ne_true),
      if_neg (by rw [e8]; exact Bool.false_ne_true),
      if_neg (by rw [e9]; exact Bool.false_ne_true),
      if_neg (by rw [e10]; exact Bool.false_ne_true),
      if_neg (by rw [e11]; exact Bool.false_ne_true),
      if_pos hc]
  constructor
  · intro pre inside hnl1 hnl2 hin1 hin2 hval
    have hps : parenSearch row.value = some (pre, inside) := by
      rw [hval]
      exact parenSearch_spec pre inside hnl1 hnl2 hin1
    have happly : applyRow m row
        = setField (setField m "CONTRIBUTOR" (pyStrip pre)) "CONTRIBUTOR_ORG" (pyStrip inside) := by
      rw [hbranch, hps]
    rw [happly]
    exact ⟨getField_setContrib2_c m hm _ _, getField_setContrib2_org m hm _ _⟩
  · intro hno
    have hps : parenSearch row.value = none := parenSearch_eq_none _ hno
    have happly : applyRow m row = setField m "CONTRIBUTOR" row.value := by
      rw [hbranch, hps]
    rw [happly]
    exact ⟨getField_setContrib1 m hm _,
      getField_setField_ne m "CONTRIBUTOR" _ "CONTRIBUTOR_ORG" (by decide)⟩

/-- C5 witness: the spec's example `Jane Doe (Institute X)` gives
`CONTRIBUTOR = "Jane Doe"` and `CONTRIBUTOR_ORG = "Institute X"`. -/
theorem contributed_by_split_witness :
    getField (applyRow (initRecord "u".toList)
        ⟨"Contributed by".toList, "Jane Doe (Institute X)".toList, none⟩) "CONTRIBUTOR"
      = "Jane Doe".toList
    ∧ getField (applyRow (initRecord "u".toList)
        ⟨"Contributed by".toList, "Jane Doe (Institute X)".toList, none⟩) "CONTRIBUTOR_ORG"
      = "Institute X".toList := by
  have h := (contributed_by_split (initRecord "u".toList)
      ⟨"Contributed by".toList, "Jane Doe (Institute X)".toList, none⟩
      (keys_initRecord "u".toList) (by decide) (by decide) (by decide) (by decide)
      (by decide) (by decide) (by decide) (by decide) (by decide) (by decide)
      (by decide) (by decide)).1 "Jane Doe ".toList "Institute X".toList
      (by decide) (by decide) (by decide) (by decide) (by decide)
  exact ⟨h.1.trans (by decide), h.2.trans (by decide)⟩

/-- C6: every record produced by per-record processing has exactly the 19
schema fields in the fixed order (each a string by construction), with
`MSIGDB_URL` always set to the detail link that produced it — also when the
attribute table or the payload link is absent — and every record appended to
the result sequence satisfies the schema invariant. -/
theorem record_schema_invariant (url : List Char) (page : DetailPage)
    (pages : List (List Char × DetailPage)) :
    (processDetail url page).map Prod.fst = fieldnames
    ∧ getField (processDetail url page) "MSIGDB_URL" = url
    ∧ ∀ r ∈ runPipeline pages, r.map Prod.fst = fieldnames := by
  refine ⟨keys_processDetail url page, getField_processDetail_msigdb url page, ?_⟩
  intro r hr
  obtain ⟨p, hp, rfl⟩ := List.mem_map.mp hr
  exact keys_processDetail p.1 p.2

/-- C6 witness: a page with neither attribute table nor payload link still
yields a full-schema record carrying its link. -/
theorem record_schema_invariant_witness :
    (processDetail "u".toList ⟨none, none⟩).map Prod.fst = fieldnames
    ∧ getField (processDetail "u".toList ⟨none, none⟩) "MSIGDB_URL" = "u".toList :=
  ⟨(record_schema_invariant "u".toList ⟨none, none⟩
      [("u".toList, ⟨none, none⟩)]).2.2 (processDetail "u".toList ⟨none, none⟩)
      (by simp [runPipeline]),
   (record_schema_invariant "u".toList ⟨none, none⟩ []).2.1⟩

/-- C7: the link collector returns exactly one link per hyperlink found in
the catalog table's cells — same count, in document order, no
de-duplication or filtering — each formed by prefixing the fixed base
location to the relative reference. -/
theorem link_collector_complete (cells : List (List (List Char))) :
    (collectLinks cells).length = cells.flatten.length
    ∧ ∀ i, i < cells.flatten.length →
        (collectLinks cells).getD i [] = baseUrl ++ cells.flatten.getD i [] := by
  constructor
  · rw [collectLinks_eq, List.length_map]
  · intro i h
    rw [collectLinks_eq, getD_map_plus _ i h]

/-- C7 witness: two cells holding three hyperlinks (one duplicated) produce
three links; the duplicate at index 2 is kept and prefixed. -/
theorem link_collector_complete_witness :
    (collectLinks [["a.html".toList], ["b.html".toList, "a.html".toList]]).length
      = ([["a.html".toList], ["b.html".toList, "a.html".toList]]
          : List (List (List Char))).flatten.length
    ∧ (collectLinks [["a.html".toList], ["b.html".toList, "a.html".toList]]).getD 2 []
      = baseUrl ++ ([["a.html".toList], ["b.html".toList, "a.html".toList]]
          : List (List (List Char))).flatten.getD 2 [] :=
  ⟨(link_collector_complete [["a.html".toList], ["b.html".toList, "a.html".toList]]).1,
   (link_collector_complete [["a.html".toList], ["b.html".toList, "a.html".toList]]).2 2
      (by decide)⟩

/-- C8: a detail page without a payload link is non-fatal: its record is
still produced, with `GENE_SYMBOLS` and `SOURCE_MEMBERS` empty, and the
per-link loop appends it in place and continues with the remaining links. -/
theorem absent_payload_nonfatal (url : List Char) (rows : Option (List AttrRow))
    (pre post : List (List Char × DetailPage)) :
    getField (processDetail url ⟨rows, none⟩) "GENE_SYMBOLS" = []
    ∧ getField (processDetail url ⟨rows, none⟩) "SOURCE_MEMBERS" = []
    ∧ runPipeline (pre ++ (url, ⟨rows, none⟩) :: post)
        = runPipeline pre ++ processDetail url ⟨rows, none⟩ :: runPipeline post := by
  have hpd : processDetail url ⟨rows, none⟩ = extractMeta url ⟨rows, none⟩ := rfl
  refine ⟨?_, ?_, ?_⟩
  · rw [hpd]
    exact getField_extractMeta_gs url ⟨rows, none⟩
  · rw [hpd]
    exact getField_extractMeta_sm url ⟨rows, none⟩
  · simp [runPipeline]

/-- C9 counterexample: a row-based payload whose gene symbol itself contains
a comma (`A,B` with id `1`) yields `GENE_SYMBOLS = "A,B"` with two
comma-separated entries but `SOURCE_MEMBERS = "1"` with one, refuting the
entry-count consequence as stated. -/
theorem comma_entry_count_mismatch :
    (splitOnChar ',' (parsePayload "GENE_SYMBOL\tGENE_ID\nA,B\t1\n".toList [] []).1).length = 2
    ∧ (splitOnChar ','
        (parsePayload "GENE_SYMBOL\tGENE_ID\nA,B\t1\n".toList [] []).2).length = 1 :=
  ⟨by decide, by decide⟩

/-- C9 (amended): the identifier and value sequences of row-based parsing
always have equal length, and therefore — provided no collected entry itself
contains a comma — the two joined strings split back into equally many
comma-separated entries. -/
theorem parallel_sequences_equal_length (body : List (List Char)) :
    (parseRowBased body).1.length = (parseRowBased body).2.length
    ∧ ((∀ s ∈ (parseRowBased body).1, ',' ∉ s) →
       (∀ s ∈ (parseRowBased body).2, ',' ∉ s) →
       (splitOnChar ',' (joinComma (parseRowBased body).1)).length
         = (splitOnChar ',' (joinComma (parseRowBased body).2)).length) := by
  have hlen : (parseRowBased body).1.length = (parseRowBased body).2.length := by
    unfold parseRowBased
    rw [List.length_map, List.length_map]
  refine ⟨hlen, fun hc1 hc2 => ?_⟩
  by_cases h1 : (parseRowBased body).1 = []
  · have h2 : (parseRowBased body).2 = [] := by
      rw [h1] at hlen
      exact List.length_eq_zero.mp hlen.symm
    rw [h1, h2]
  · have h2 : (parseRowBased body).2 ≠ [] := by
      intro hnil
      rw [hnil] at hlen
      exact h1 (List.length_eq_zero.mp hlen)
    rw [splitOnChar_joinComma _ h1 hc1, splitOnChar_joinComma _ h2 hc2, hlen]

/-- C9 witness: a one-row body gives one entry on each side. -/
theorem parallel_sequences_equal_length_witness :
    (splitOnChar ',' (joinComma (parseRowBased ["TP53\t7157".toList]).1)).length
      = (splitOnChar ',' (joinComma (parseRowBased ["TP53\t7157".toList]).2)).length :=
  (parallel_sequences_equal_length ["TP53\t7157".toList]).2 (by decide) (by decide)

/-- C10: splitting the stripped payload on newlines never yields an empty
list, so the parser's explicit empty-lines branch is unreachable; an
all-whitespace payload instead reaches key-value mode through an empty first
line and leaves both gene fields empty. -/
theorem empty_lines_branch_unreachable :
    (∀ text : List Char, pyLines text ≠ [])
    ∧ (∀ text : List Char, (∀ c ∈ text, pyIsSpace c = true) →
        payloadMode text = PayloadMode.keyValue
          ∧ parsePayload text [] [] = ([], [])) :=
  ⟨fun text => splitOnChar_ne_nil '\n' (pyStrip text),
   fun text h => parse_all_space text h⟩

/-- C10 witness: the empty payload has one (empty) line, is classified
key-value and yields empty fields. -/
theorem empty_lines_branch_unreachable_witness :
    pyLines [] ≠ []
    ∧ payloadMode [] = PayloadMode.keyValue
    ∧ parsePayload [] [] [] = ([], []) :=
  ⟨empty_lines_branch_unreachable.1 [],
   (empty_lines_branch_unreachable.2 [] (by decide)).1,
   (empty_lines_branch_unreachable.2 [] (by decide)).2⟩

end GSEA
